import Mathlib

/-!
Verification of the native launcher of the itch app
(`appsrc/tasks/launch/native.js`) and the API helper `ensureArray`
(`util/api.ts`).

Strings are modelled as `List Char`; JavaScript regular-expression tests used
by the scorer are modelled as executable boolean functions on `List Char`.
Filesystem stat results are modelled as a function from (joined) paths to
`Option Nat` (byte size, `none` when the stat probe fails).  The bounded
concurrency of the stat stage is modelled by an explicit completion order
`ord : List Nat` (the order in which the stat probes resolve and push into the
shared output collection); the sequential special case is `List.range n`.
-/

namespace Itch

/-! ## List-of-characters utilities -/

/-- Does `pat` occur at the start of `s`? -/
def startsWithL : List Char → List Char → Bool
  | [], _ => true
  | _ :: _, [] => false
  | a :: as, b :: bs => a = b && startsWithL as bs

/-- Does `pat` occur at the end of `s`? -/
def endsWithL (pat s : List Char) : Bool :=
  startsWithL pat.reverse s.reverse

/-- Does `pat` occur somewhere inside `s`? -/
def containsL (pat : List Char) : List Char → Bool
  | [] => pat.isEmpty
  | c :: rest => startsWithL pat (c :: rest) || containsL pat rest

/-- Lowercase every character (models the `/i` regex flag). -/
def lower (s : List Char) : List Char := s.map Char.toLower

/-- JavaScript `String.prototype.split` on a single separator character:
`n` separators yield `n + 1` (possibly empty) pieces. -/
def splitSep (sep : Char) : List Char → List (List Char)
  | [] => [[]]
  | c :: rest =>
    match splitSep sep rest with
    | [] => [[c]]
    | t :: ts => if c = sep then [] :: t :: ts else (c :: t) :: ts

/-- `Array.prototype.join` with a single separator character. -/
def joinSep (sep : Char) : List (List Char) → List Char
  | [] => []
  | [a] => a
  | a :: b :: rest => a ++ sep :: joinSep sep (b :: rest)

/-! ## Path model (posix flavour of node's `path` module)

`path.join(a, b)` is modelled as concatenation with a single `/` separator
(the install root is an absolute path and the candidate path is relative,
which is the only way the launcher uses it). -/

def pathJoin (a b : List Char) : List Char := a ++ '/' :: b

/-- Segment resolution of node's `path.posix.normalize`: drop empty and `.`
segments; `..` pops the previous segment, or is kept at the front of a
relative path (`allowAbove = true`), or dropped at the root of an absolute
path. `acc` holds the already-resolved segments in reverse. -/
def normSegs (allowAbove : Bool) : List (List Char) → List (List Char) → List (List Char)
  | acc, [] => acc.reverse
  | acc, s :: rest =>
    if s = [] || s = ['.'] then normSegs allowAbove acc rest
    else if s = ['.', '.'] then
      match acc with
      | [] => if allowAbove then normSegs allowAbove [['.', '.']] rest
              else normSegs allowAbove [] rest
      | t :: ts =>
        if t = ['.', '.'] then normSegs allowAbove (s :: t :: ts) rest
        else normSegs allowAbove ts rest
    else normSegs allowAbove (s :: acc) rest

/-- node `path.posix.normalize`. -/
def normalizePosix (p : List Char) : List Char :=
  if p = [] then ['.']
  else
    let abs : Bool := startsWithL ['/'] p
    let trailing : Bool := endsWithL ['/'] p
    let core := joinSep '/' (normSegs (!abs) [] (splitSep '/' p))
    if core = [] then
      if abs then ['/'] else if trailing then ['.', '/'] else ['.']
    else
      let core := if trailing then core ++ ['/'] else core
      if abs then '/' :: core else core

/-! ## Candidate data model

`Exe` mirrors the candidate objects of `launch`: fields are attached in place
as the pipeline stages run (`weight` by `computeWeight`, `score` by
`computeScore`, `depth` by `computeDepth`); unattached fields default to 0. -/

structure Exe where
  path : List Char
  weight : Nat := 0
  score : Int := 0
  depth : Nat := 0
deriving DecidableEq, Repr

/-! ## Candidate scorer (`computeScore`)

Each JavaScript regex test of `computeScore` is modelled separately. -/

/-- `/unins.*\.exe$/i.test(path)`: the path ends with `.exe` and `unins`
occurs before the final `.exe`. -/
def uninsTest (p : List Char) : Bool :=
  let l := lower p
  endsWithL ".exe".toList l && containsL "unins".toList (l.take (l.length - 4))

/-- `/^kick\.bin/i.test(path)` -/
def kickTest (p : List Char) : Bool :=
  startsWithL "kick.bin".toList (lower p)

/-- `/nwjc\.exe$/i.test(path)` -/
def nwjcTest (p : List Char) : Bool :=
  endsWithL "nwjc.exe".toList (lower p)

/-- `/dxwebsetup\.exe$/i.test(path)` -/
def dxwebTest (p : List Char) : Bool :=
  endsWithL "dxwebsetup.exe".toList (lower p)

/-- `/vcredist.*\.exe$/i.test(path)` -/
def vcredistTest (p : List Char) : Bool :=
  let l := lower p
  endsWithL ".exe".toList l && containsL "vcredist".toList (l.take (l.length - 4))

/-- `/\.(so|dylib)/.test(path)` (case sensitive, unanchored). -/
def soDylibTest (p : List Char) : Bool :=
  containsL ".so".toList p || containsL ".dylib".toList p

/-- `/\.sh/.test(path)` (case sensitive, unanchored). -/
def shTest (p : List Char) : Bool :=
  containsL ".sh".toList p

/-- The score computation of `computeScore`, as a function of the seven
regex-test outcomes, in the order the source applies them. -/
def scoreCore (unins kick nwjc dxweb vcredist sodylib shflag : Bool) : Int :=
  let score : Int := 100
  let score := if unins then score - 50 else score
  let score := if kick then score - 50 else score
  let score := if nwjc then score - 20 else score
  let score := if dxweb then 0 else score
  let score := if vcredist then 0 else score
  let score := if sodylib then 0 else score
  let score := if shflag then score + 20 else score
  score

/-- The score `computeScore` assigns to a candidate path. -/
def scoreOf (p : List Char) : Int :=
  scoreCore (uninsTest p) (kickTest p) (nwjcTest p) (dxwebTest p)
    (vcredistTest p) (soDylibTest p) (shTest p)

/-- `computeScore`: sets `exe.score` and keeps the candidate only when the
score is positive (`if (score > 0) output.push(exe)`). -/
def computeScore (execs : List Exe) : List Exe :=
  execs.filterMap (fun exe =>
    let score := scoreOf exe.path
    let exe := { exe with score := score }
    if 0 < score then some exe else none)

/-! ## Stat stage (`computeWeight`)

The source probes each candidate with `sf.stat` under bluebird's
`{concurrency: 4}` and pushes into a shared `output` array as each probe
resolves.  `computeWeightOrd` makes the completion order explicit: `ord`
lists the candidate indices in the order their probes resolve.  The
sequential completion order `List.range execs.length` recovers the plain
input-order fold `computeWeight`. -/

/-- The body of the stat probe `f`: on stat success attach the byte size as
`weight`, on failure drop the candidate. -/
def statProbe (appPath : List Char) (stats : List Char → Option Nat)
    (exe : Exe) : Option Exe :=
  match stats (pathJoin appPath exe.path) with
  | none => none
  | some size => some { exe with weight := size }

/-- `computeWeight` with an explicit probe completion order. -/
def computeWeightOrd (appPath : List Char) (stats : List Char → Option Nat)
    (ord : List Nat) (execs : List Exe) : List Exe :=
  ord.filterMap (fun i => (execs.get? i).bind (statProbe appPath stats))

/-- `computeWeight` under sequential probe completion (completion in input
order): candidates that stat successfully, in input order, annotated with
their byte size. -/
def computeWeight (appPath : List Char) (stats : List Char → Option Nat)
    (execs : List Exe) : List Exe :=
  execs.filterMap (statProbe appPath stats)

/-- Which probe completion orders are possible under bluebird's
`{concurrency: 4}`: every candidate completes exactly once, and the probe
finishing `k`-th can only be one of the first `k + 4` candidates (a probe
must have started before it completes; probe `i` starts after `i - 4`
completions). -/
def validSchedule (n : Nat) (ord : List Nat) : Prop :=
  ord.Perm (List.range n) ∧ ∀ k (h : k < ord.length), ord.get ⟨k, h⟩ ≤ k + 3

/-! ## Depth stage (`computeDepth`) -/

/-- `path.normalize(p).split(path.sep).length` (posix separator). -/
def depthOf (p : List Char) : Nat :=
  (splitSep '/' (normalizePosix p)).length

/-- `computeDepth`: attaches `depth` to every candidate, no filtering. -/
def computeDepth (execs : List Exe) : List Exe :=
  execs.map (fun exe => { exe with depth := depthOf exe.path })

/-! ## Ranking (the three `sortBy` calls of `launch`)

underscore's `sortBy` is a stable ascending sort on an integer key; it is
modelled by a stable insertion sort: a new element is placed before the
first element whose key is not smaller, so elements with equal keys keep
their relative order. -/

/-- Stable insertion of `x` into `l` by key `k`. -/
def insertK (k : Exe → Int) (x : Exe) : List Exe → List Exe
  | [] => [x]
  | y :: ys => if k y < k x then y :: insertK k x ys else x :: y :: ys

/-- Stable ascending sort by key `k` (models underscore `sortBy`). -/
def sortByKey (k : Exe → Int) : List Exe → List Exe
  | [] => []
  | x :: xs => insertK k x (sortByKey k xs)

/-- Key of the first sort: `-x.weight` (weight descending). -/
def kW (e : Exe) : Int := -(e.weight : Int)

/-- Key of the second sort: `-x.score` (score descending). -/
def kS (e : Exe) : Int := -e.score

/-- Key of the third sort: `x.depth` (depth ascending). -/
def kD (e : Exe) : Int := (e.depth : Int)

/-- The three sequential sorts of `launch`, in source order. -/
def rank3 (l : List Exe) : List Exe :=
  sortByKey kD (sortByKey kS (sortByKey kW l))

/-- `cave.executables.map((path) => ({path}))`. -/
def initialCandidates (executables : List (List Char)) : List Exe :=
  executables.map (fun p => { path := p })

/-- The pre-sort pipeline of `launch`: stat (with completion order `ord`),
then score, then depth. -/
def prepOrd (appPath : List Char) (stats : List Char → Option Nat)
    (ord : List Nat) (execs : List Exe) : List Exe :=
  computeDepth (computeScore (computeWeightOrd appPath stats ord execs))

/-- The candidate list of `launch` after stat, score, depth and the three
sorts. -/
def rankedCandidates (ord : List Nat) (appPath : List Char)
    (stats : List Char → Option Nat) (executables : List (List Char)) : List Exe :=
  rank3 (prepOrd appPath stats ord (initialCandidates executables))

/-! ## Process launcher (`escape`, `sh`, `launchExecutable`, `launch`) -/

/-- `escape`: wrap in double quotes, backslash-escaping internal double
quotes (`arg.replace(/"/g, '\\"')`). -/
def escBody : List Char → List Char
  | [] => []
  | c :: rest => if c = '"' then '\\' :: '"' :: escBody rest else c :: escBody rest

/-- `function escape (arg) { return `"${arg.replace(/"/g, '\\"')}"` }` -/
def escape (arg : List Char) : List Char :=
  '"' :: escBody arg ++ ['"']

/-- The payload of the `Crash` error thrown by `sh`. -/
structure CrashInfo where
  exePath : List Char
  error : List Char
deriving DecidableEq, Repr

/-- The exit-code handling of `sh`: the child's exit code (as returned by
`spawn`, passed here as a parameter) decides between a `Crash` failure and
the success message. -/
def sh (exePath : List Char) (code : Int) : Except CrashInfo (List Char) :=
  if code ≠ 0 then
    Except.error ⟨exePath, "process exited with code ".toList ++ (toString code).toList⟩
  else
    Except.ok "child completed successfully".toList

/-- `isAppBundle`: `/\.app\/?$/.test(exePath.toLowerCase())`. -/
def isAppBundle (exePath : List Char) : Bool :=
  endsWithL ".app".toList (lower exePath) || endsWithL ".app/".toList (lower exePath)

/-- `/\.jar$/i.test(exePath)` -/
def jarTest (exePath : List Char) : Bool :=
  endsWithL ".jar".toList (lower exePath)

/-- `args.map((x) => escape(x)).join(' ')`. -/
def joinArgs : List (List Char) → List Char
  | [] => []
  | [a] => a
  | a :: b :: rest => a ++ ' ' :: joinArgs (b :: rest)

/-- Typed failures of the launch pipeline. -/
inductive LaunchError where
  /-- `launch` throws an `Error` with a `reason` array attached when no
  candidate survives weighing and sorting. -/
  | noExecutables (message : List Char) (reason : List (List Char))
  /-- `getFullExec` fails (plutil failure or unparseable bundle metadata). -/
  | bundleError (bundlePath : List Char)
deriving DecidableEq, Repr

/-- The `(exePath, fullCommand)` pair handed to `sh` by `launchExecutable`. -/
structure ShCall where
  exePath : List Char
  fullCommand : List Char
deriving DecidableEq, Repr

/-- `launchExecutable`, up to the call to `sh`.  `platform` models
`os.platform()`; `fullExecOf` models the outcome of `getFullExec` (an
external `plutil` invocation; `none` is its failure).  The sandbox branch
reproduces the source string verbatim, including its stray trailing brace
(`... ${cmd}}`). -/
def launchExecutable (platform : List Char) (isolateApps : Bool)
    (fullExecOf : List Char → Option (List Char)) (appPath : List Char)
    (exePath : List Char) (args : List (List Char)) : Except LaunchError ShCall :=
  let argString := joinArgs (args.map escape)
  if platform = "darwin".toList ∧ isAppBundle exePath = true then
    match fullExecOf exePath with
    | none => Except.error (LaunchError.bundleError exePath)
    | some fullExec =>
      let cmd := escape fullExec ++ ' ' :: argString
      if isolateApps then
        let sandboxProfilePath := pathJoin appPath (pathJoin ".itch".toList "isolate-app.sb".toList)
        Except.ok ⟨fullExec,
          "sandbox-exec -f ".toList ++ escape sandboxProfilePath ++ ' ' :: cmd ++ ['\x7d']⟩
      else
        Except.ok ⟨exePath, cmd⟩
  else
    let cmd := escape exePath
    let cmd := if argString.length > 0 then cmd ++ ' ' :: argString else cmd
    Except.ok ⟨exePath, cmd⟩

/-- `launch`: the whole pipeline from the declared executables to the
`sh` call (or a typed failure). -/
def launch (ord : List Nat) (platform : List Char) (isolateApps : Bool)
    (fullExecOf : List Char → Option (List Char)) (appPath : List Char)
    (stats : List Char → Option Nat) (executables : List (List Char)) :
    Except LaunchError ShCall :=
  match rankedCandidates ord appPath stats executables with
  | [] => Except.error (LaunchError.noExecutables
      "After weighing/sorting, no executables left".toList
      ["game.install.no_executables_found".toList])
  | c :: _ =>
    let exePath := pathJoin appPath c.path
    let args : List (List Char) := []
    let step : List Char × List (List Char) :=
      if jarTest exePath then ("java".toList, args ++ ["-jar".toList, exePath])
      else (exePath, args)
    launchExecutable platform isolateApps fullExecOf appPath step.1 step.2

/-! ## Shell-argument tokenizer

Modelled from the spec: the shell-tokenization library (`shell-quote`,
used by `sh` as `shellQuote.parse(fullCommand)`) is an external collaborator
(spec §1 places it out of scope, §4.7/§8 describe its contract).  The model
follows the spec's double-quoting rules: whitespace separates tokens outside
quotes, double quotes group a segment (adjacent segments concatenate), and a
backslash escapes the following character, in particular `\"` yields a
literal double quote. -/

def isSpace (c : Char) : Bool := c = ' ' || c = '\t' || c = '\n'

/-- Tokenizer state machine.  `esc`: the previous character was an
unconsumed backslash, so the next character is taken literally; `inQ`:
inside a double-quoted segment; `started`: the current token has begun (so
an empty pair of quotes still yields an empty token); `cur`: the token
built so far; `acc`: finished tokens. -/
def shellParseAux : List Char → Bool → Bool → Bool → List Char → List (List Char) → List (List Char)
  | [], esc, inQ, started, cur, acc =>
    if esc then acc ++ [cur ++ ['\\']]
    else if started || inQ then acc ++ [cur] else acc
  | c :: rest, esc, inQ, started, cur, acc =>
    if esc then shellParseAux rest false inQ true (cur ++ [c]) acc
    else if c = '\\' then shellParseAux rest true inQ started cur acc
    else if c = '"' then shellParseAux rest false (!inQ) true cur acc
    else if inQ then shellParseAux rest false inQ true (cur ++ [c]) acc
    else if isSpace c then
      if started then shellParseAux rest false false false [] (acc ++ [cur])
      else shellParseAux rest false false false [] acc
    else shellParseAux rest false false true (cur ++ [c]) acc

/-- Modelled from the spec: `shellQuote.parse`. -/
def shellParse (s : List Char) : List (List Char) :=
  shellParseAux s false false false [] []

/-! ## `ensureArray` (`util/api.ts`)

`ensureArray` receives an arbitrary JSON-ish JavaScript value (`any`);
the value domain and JavaScript truthiness are modelled explicitly. -/

/-- JavaScript values as far as `ensureArray` can observe them. -/
inductive JSVal where
  | undefined
  | null
  | bool (b : Bool)
  | num (n : Int)
  | str (s : List Char)
  | arr (elems : List JSVal)
  | obj (fields : List (List Char × JSVal))

/-- JavaScript truthiness: `undefined`, `null`, `false`, `0` and `""` are
falsy; arrays and objects are always truthy. -/
def truthy : JSVal → Bool
  | .undefined => false
  | .null => false
  | .bool b => b
  | .num n => n != 0
  | .str s => !s.isEmpty
  | .arr _ => true
  | .obj _ => true

/-- First binding of a field name in an object. -/
def lookupField (k : List Char) : List (List Char × JSVal) → Option JSVal
  | [] => none
  | (k2, v) :: rest => if k2 = k then some v else lookupField k rest

/-- JavaScript property read `v.length`: arrays and strings have a numeric
`length`; objects may carry an explicit `length` field; every other read
yields `undefined`.  (`v` is known truthy at the read site, so the
null/undefined throw cannot occur.) -/
def jsLength : JSVal → JSVal
  | .arr l => .num l.length
  | .str s => .num s.length
  | .obj fields =>
    match lookupField "length".toList fields with
    | some v => v
    | none => .undefined
  | _ => .undefined

/-- `ensureArray`: `if (!v || !v.length) { return []; } return v;` -/
def ensureArray (v : JSVal) : JSVal :=
  if !truthy v || !truthy (jsLength v) then .arr [] else v

/-! ## Derived definitions used by the statements -/

/-- Candidates that agree on all three sort keys (weight, score, depth). -/
def tripleP (w : Nat) (s : Int) (d : Nat) (e : Exe) : Bool :=
  e.weight == w && e.score == s && e.depth == d

/-- The whole pre-sort pipeline (stat, score, depth) as a single per-element
transformation, used to state that under sequential probe completion the
pipeline preserves the input order. -/
def stageF (appPath : List Char) (stats : List Char → Option Nat)
    (exe : Exe) : Option Exe :=
  match statProbe appPath stats exe with
  | none => none
  | some exe1 =>
    let score := scoreOf exe1.path
    let exe2 := { exe1 with score := score }
    if 0 < score then some { exe2 with depth := depthOf exe2.path } else none

/-! ## Lemmas about the stable sorts -/

theorem insertK_perm (k : Exe → Int) (x : Exe) (l : List Exe) :
    (insertK k x l).Perm (x :: l) := by
  induction l with
  | nil => simp [insertK]
  | cons y ys ih =>
    by_cases h : k y < k x
    · simp only [insertK, if_pos h]
      exact (ih.cons y).trans (List.Perm.swap x y ys)
    · simp only [insertK, if_neg h]
      exact List.Perm.refl _

theorem sortByKey_perm (k : Exe → Int) (l : List Exe) : (sortByKey k l).Perm l := by
  induction l with
  | nil => simp [sortByKey]
  | cons x xs ih => exact (insertK_perm k x (sortByKey k xs)).trans (ih.cons x)

theorem mem_sortByKey (k : Exe → Int) (e : Exe) (l : List Exe) :
    e ∈ sortByKey k l ↔ e ∈ l :=
  (sortByKey_perm k l).mem_iff

theorem mem_rank3 (e : Exe) (l : List Exe) : e ∈ rank3 l ↔ e ∈ l := by
  unfold rank3
  rw [mem_sortByKey, mem_sortByKey, mem_sortByKey]

/-- Stability of one stable insertion: filtering by a predicate that pins
down the sort key commutes with the insertion. -/
theorem filter_insertK (k : Exe → Int) (P : Exe → Bool) (v : Int)
    (hP : ∀ e, P e = true → k e = v) (x : Exe) (l : List Exe) :
    (insertK k x l).filter P = ((x :: l).filter P) := by
  induction l with
  | nil => rfl
  | cons y ys ih =>
    by_cases h : k y < k x
    · simp only [insertK, if_pos h]
      by_cases hy : P y = true
      · by_cases hx : P x = true
        · have h1 := hP y hy
          have h2 := hP x hx
          omega
        · simp [List.filter_cons, hy, hx, ih]
      · simp [List.filter_cons, hy, ih]
    · simp only [insertK, if_neg h]

/-- Stability of one stable sort: filtering by a predicate that pins down
the sort key commutes with the sort. -/
theorem filter_sortByKey (k : Exe → Int) (P : Exe → Bool) (v : Int)
    (hP : ∀ e, P e = true → k e = v) (l : List Exe) :
    (sortByKey k l).filter P = l.filter P := by
  induction l with
  | nil => rfl
  | cons x xs ih =>
    show (insertK k x (sortByKey k xs)).filter P = ((x :: xs).filter P)
    rw [filter_insertK k P v hP, List.filter_cons, List.filter_cons, ih]

/-- Stability of the three-sort ranking: candidates tied on weight, score
and depth keep their relative order across `rank3`. -/
theorem filter_rank3 (w : Nat) (s : Int) (d : Nat) (l : List Exe) :
    (rank3 l).filter (tripleP w s d) = l.filter (tripleP w s d) := by
  have hW : ∀ e, tripleP w s d e = true → kW e = -(w : Int) := by
    intro e he
    simp only [tripleP, Bool.and_eq_true, beq_iff_eq] at he
    simp [kW, he.1.1]
  have hS : ∀ e, tripleP w s d e = true → kS e = -s := by
    intro e he
    simp only [tripleP, Bool.and_eq_true, beq_iff_eq] at he
    simp [kS, he.1.2]
  have hD : ∀ e, tripleP w s d e = true → kD e = (d : Int) := by
    intro e he
    simp only [tripleP, Bool.and_eq_true, beq_iff_eq] at he
    simp [kD, he.2]
  unfold rank3
  rw [filter_sortByKey kD _ _ hD, filter_sortByKey kS _ _ hS,
    filter_sortByKey kW _ _ hW]

/-! ## Lemmas about the stat stage -/

theorem filterMap_range_get {α β : Type} (l : List α) (g : α → Option β) :
    (List.range l.length).filterMap (fun i => (l.get? i).bind g) = l.filterMap g := by
  induction l with
  | nil => simp
  | cons a t ih =>
    rw [List.length_cons, List.range_succ_eq_map, List.filterMap_cons, List.filterMap_map]
    simp only [List.get?_cons_zero, Option.some_bind, Function.comp_def, List.get?_cons_succ]
    rw [ih, List.filterMap_cons]

/-- Sequential probe completion recovers the input-order stat stage. -/
theorem computeWeightOrd_range (appPath : List Char) (stats : List Char → Option Nat)
    (execs : List Exe) :
    computeWeightOrd appPath stats (List.range execs.length) execs
      = computeWeight appPath stats execs := by
  unfold computeWeightOrd
  rw [filterMap_range_get]
  rfl

/-- The sequential pre-sort pipeline is a per-element `filterMap` of its
input, hence preserves the input order of the surviving candidates. -/
theorem prep_eq_filterMap (appPath : List Char) (stats : List Char → Option Nat)
    (execs : List Exe) :
    computeDepth (computeScore (computeWeight appPath stats execs))
      = execs.filterMap (stageF appPath stats) := by
  unfold computeDepth computeScore computeWeight
  rw [List.filterMap_filterMap, List.map_filterMap]
  congr 1
  funext exe
  unfold stageF
  cases statProbe appPath stats exe with
  | none => rfl
  | some exe1 =>
    simp only [Option.some_bind]
    by_cases h : 0 < scoreOf exe1.path
    · simp [h]
    · simp [h]

/-! ## Claims -/

/-- C1: For the input candidate list `["game.exe"` (size 500),
`"unins000.exe"` (size 600)`]`, both at equal depth, the scorer assigns
`unins000.exe` a score of 50 and `game.exe` a score of 100, and after the
three stable sorts (weight descending, score descending, depth ascending)
the final ranked order is `[game.exe, unins000.exe]` and the chosen head is
`game.exe`. -/
theorem claim1_ranking_example :
    scoreOf ("game.exe".toList) = 100 ∧
    scoreOf ("unins000.exe".toList) = 50 ∧
    rankedCandidates [0, 1] ("/apps/g".toList)
        (fun p => if p = "/apps/g/game.exe".toList then some 500
          else if p = "/apps/g/unins000.exe".toList then some 600 else none)
        ["game.exe".toList, "unins000.exe".toList]
      = [⟨"game.exe".toList, 500, 100, 1⟩, ⟨"unins000.exe".toList, 600, 50, 1⟩] ∧
    (rankedCandidates [0, 1] ("/apps/g".toList)
        (fun p => if p = "/apps/g/game.exe".toList then some 500
          else if p = "/apps/g/unins000.exe".toList then some 600 else none)
        ["game.exe".toList, "unins000.exe".toList]).head?
      = some ⟨"game.exe".toList, 500, 100, 1⟩ := by
  decide

/-- C2 counterexample: the claim "every score lies in [0, 100]" is false:
`script.sh` (the `.sh` bonus on the base 100) scores 120, and
`kick.binunins-nwjc.exe` (all three additive penalties) scores -20. -/
theorem claim2_counterexample :
    scoreOf ("script.sh".toList) = 120 ∧
    ¬ scoreOf ("script.sh".toList) ≤ 100 ∧
    scoreOf ("kick.binunins-nwjc.exe".toList) = -20 ∧
    ¬ 0 ≤ scoreOf ("kick.binunins-nwjc.exe".toList) := by
  decide

/-- C2 amended: for every candidate path the computed score lies in the
closed range [-20, 120] (the additive penalties can sum to -120 below the
base 100, and the `.sh` bonus is applied after the force-to-zero rules). -/
theorem claim2_amended_bounds (p : List Char) :
    -20 ≤ scoreOf p ∧ scoreOf p ≤ 120 := by
  unfold scoreOf
  have h : ∀ b1 b2 b3 b4 b5 b6 b7 : Bool,
      -20 ≤ scoreCore b1 b2 b3 b4 b5 b6 b7 ∧ scoreCore b1 b2 b3 b4 b5 b6 b7 ≤ 120 := by
    decide
  exact h _ _ _ _ _ _ _

/-- C3 counterexample: `foo.so.sh` matches both a force-to-zero rule
(shared-library extension `.so`) and the additive `.sh` bonus, yet its final
score is 20, not 0: the `.sh` bonus is applied after the force-to-zero
rules and overrides them. -/
theorem claim3_counterexample :
    soDylibTest ("foo.so.sh".toList) = true ∧
    shTest ("foo.so.sh".toList) = true ∧
    scoreOf ("foo.so.sh".toList) = 20 ∧
    scoreOf ("foo.so.sh".toList) ≠ 0 := by
  decide

/-- C3 amended: the force-to-zero rules take priority over the additive
penalties that precede them (uninstaller, kick.bin, nwjc), but the `.sh`
bonus is applied afterwards: a path matching a force-to-zero rule scores
exactly 0 when the `.sh` bonus does not apply, and exactly 20 when it
does. -/
theorem claim3_amended_zero_priority (p : List Char)
    (h : dxwebTest p = true ∨ vcredistTest p = true ∨ soDylibTest p = true) :
    scoreOf p = if shTest p then 20 else 0 := by
  unfold scoreOf
  have hc : ∀ b1 b2 b3 b4 b5 b6 b7 : Bool, b4 = true ∨ b5 = true ∨ b6 = true →
      scoreCore b1 b2 b3 b4 b5 b6 b7 = if b7 then 20 else 0 := by
    decide
  exact hc _ _ _ _ _ _ _ h

/-- Witness for C3 amended, at the concrete path `foo.so.sh`. -/
theorem claim3_amended_zero_priority_witness :
    scoreOf ("foo.so.sh".toList) = if shTest ("foo.so.sh".toList) then 20 else 0 :=
  claim3_amended_zero_priority ("foo.so.sh".toList) (Or.inr (Or.inr (by decide)))

/-- C4: a candidate whose computed final score is ≤ 0 (equivalently, not
> 0) never appears in the output of `computeScore`, and therefore never
appears in the ranked candidate list: every member of either list has a
strictly positive score. -/
theorem claim4_nonpositive_dropped :
    (∀ (l : List Exe) (e : Exe), e ∈ computeScore l → 0 < e.score) ∧
    (∀ (ord : List Nat) (appPath : List Char) (stats : List Char → Option Nat)
      (executables : List (List Char)) (e : Exe),
        e ∈ rankedCandidates ord appPath stats executables → 0 < e.score) := by
  have hscore : ∀ (l : List Exe) (e : Exe), e ∈ computeScore l → 0 < e.score := by
    intro l e he
    simp only [computeScore, List.mem_filterMap] at he
    obtain ⟨a, _, ha⟩ := he
    by_cases h : 0 < scoreOf a.path
    · rw [if_pos h] at ha
      obtain rfl : ({ a with score := scoreOf a.path } : Exe) = e :=
        (Option.some.injEq _ _).mp ha
      exact h
    · rw [if_neg h] at ha
      exact Option.noConfusion ha
  refine ⟨hscore, ?_⟩
  intro ord appPath stats executables e he
  unfold rankedCandidates prepOrd at he
  rw [mem_rank3] at he
  simp only [computeDepth, List.mem_map] at he
  obtain ⟨e1, he1, rfl⟩ := he
  exact hscore _ e1 he1

/-- Witness for C4, at a concrete scored candidate. -/
theorem claim4_nonpositive_dropped_witness :
    0 < (Exe.mk ("game.exe".toList) 0 100 0).score :=
  claim4_nonpositive_dropped.1 [{ path := "game.exe".toList }]
    (Exe.mk ("game.exe".toList) 0 100 0) (by decide)

/-- C5 counterexample: the stat stage pushes candidates in probe completion
order, not input order.  The completion order `[1, 0]` is possible under the
concurrency cap of 4 (both probes start immediately), and with it the two
candidates `a.exe` and `b.exe` — identical weight 100, score 100 and depth
1 — leave the pipeline in the order `[b.exe, a.exe]`, the reverse of their
order in the original input sequence `[a.exe, b.exe]`. -/
theorem claim5_counterexample :
    validSchedule 2 [1, 0] ∧
    rankedCandidates [1, 0] ("/r".toList)
        (fun p => if p = "/r/a.exe".toList then some 100
          else if p = "/r/b.exe".toList then some 100 else none)
        ["a.exe".toList, "b.exe".toList]
      = [⟨"b.exe".toList, 100, 100, 1⟩, ⟨"a.exe".toList, 100, 100, 1⟩] ∧
    tripleP 100 100 1 ⟨"a.exe".toList, 100, 100, 1⟩ = true ∧
    tripleP 100 100 1 ⟨"b.exe".toList, 100, 100, 1⟩ = true := by
  refine ⟨⟨by decide, by decide⟩, by decide, by decide, by decide⟩

/-- C5 amended: each of the three sorts is stable, so candidates tied on
weight, score and depth keep, in the final ranked output, the relative
order in which they left the stat stage (first conjunct, for every probe
completion order, since it holds for every pre-sort list); and when the
stat probes complete sequentially (in input order) the pre-sort pipeline is
an order-preserving per-element `filterMap` of the original input sequence,
so the tied candidates then appear in input order (second conjunct). -/
theorem claim5_amended_stability :
    (∀ (l : List Exe) (w : Nat) (s : Int) (d : Nat),
      (rank3 l).filter (tripleP w s d) = l.filter (tripleP w s d)) ∧
    (∀ (appPath : List Char) (stats : List Char → Option Nat)
      (executables : List (List Char)),
        prepOrd appPath stats (List.range executables.length)
            (initialCandidates executables)
          = executables.filterMap (fun p => stageF appPath stats { path := p })) := by
  constructor
  · intro l w s d
    exact filter_rank3 w s d l
  · intro appPath stats executables
    unfold prepOrd initialCandidates
    have hlen : executables.length
        = (executables.map (fun p => ({ path := p } : Exe))).length := by
      rw [List.length_map]
    rw [hlen, computeWeightOrd_range, prep_eq_filterMap, List.filterMap_map]
    rfl

/-- C6 counterexample: the round-trip fails for an argument containing a
backslash: `escape "\\"` is the three characters `"\"`, whose backslash
escapes the closing quote, so the tokenizer yields the single token `"`,
not the original `\`. -/
theorem claim6_counterexample :
    shellParse (escape ("\\".toList)) = ["\"".toList] ∧
    shellParse (escape ("\\".toList)) ≠ ["\\".toList] := by
  refine ⟨by decide, by decide⟩

/-- The tokenizer inside a double-quoted segment produced by `escBody`:
every `\"` contributes a literal quote, every other character itself, and
the closing quote ends the token. -/
theorem shellParseAux_escBody (arg : List Char) (h : '\\' ∉ arg) :
    ∀ (cur : List Char) (acc : List (List Char)),
      shellParseAux (escBody arg ++ ['"']) false true true cur acc = acc ++ [cur ++ arg] := by
  induction arg with
  | nil =>
    intro cur acc
    simp [escBody, shellParseAux]
  | cons c rest ih =>
    intro cur acc
    have hc : c ≠ '\\' := fun hh => h (hh ▸ List.mem_cons_self c rest)
    have hrest : '\\' ∉ rest := fun hh => h (List.mem_cons_of_mem c hh)
    by_cases hq : c = '"'
    · subst hq
      simp only [escBody, eq_self_iff_true, if_true, List.cons_append]
      rw [show shellParseAux ('\\' :: '"' :: (escBody rest ++ ['"'])) false true true cur acc
            = shellParseAux (escBody rest ++ ['"']) false true true (cur ++ ['"']) acc from rfl]
      rw [ih hrest (cur ++ ['"']) acc]
      simp
    · simp only [escBody, if_neg hq, List.cons_append]
      rw [shellParseAux, if_neg (by decide : ¬ (false = true)), if_neg hc, if_neg hq,
        if_pos rfl]
      rw [ih hrest (cur ++ [c]) acc]
      simp


/-- C6 amended: for every argument string containing no backslash,
escaping (wrapping in double quotes with internal double quotes
backslash-escaped) and then parsing with the shell-argument tokenizer
yields back exactly the original string as a single token.  (For arguments
containing a backslash the round-trip fails, since `escape` escapes only
double quotes.) -/
theorem claim6_amended_roundtrip (arg : List Char) (h : '\\' ∉ arg) :
    shellParse (escape arg) = [arg] := by
  have h1 : shellParse (escape arg)
      = shellParseAux (escBody arg ++ ['"']) false true true [] [] := rfl
  rw [h1, shellParseAux_escBody arg h]
  simp

/-- Witness for C6 amended, at the concrete argument `a"b c` (which
contains a double quote and a space but no backslash). -/
theorem claim6_amended_roundtrip_witness :
    shellParse (escape ("a\"b c".toList)) = ["a\"b c".toList] :=
  claim6_amended_roundtrip ("a\"b c".toList) (by decide)

/-- C7: the `sh` step yields the typed `Crash` failure — carrying the
executable path and a reason embedding the exit code — exactly when the
child process exits with a non-zero code, and yields the human-readable
success outcome exactly when the exit code is zero. -/
theorem claim7_sh_exit_outcome (exePath : List Char) (code : Int) :
    (sh exePath code
        = Except.error ⟨exePath,
            "process exited with code ".toList ++ (toString code).toList⟩
      ↔ code ≠ 0) ∧
    (sh exePath code = Except.ok ("child completed successfully".toList)
      ↔ code = 0) := by
  unfold sh
  by_cases h : code = 0
  · subst h
    simp
  · simp [h]

/-- C8: when no candidate survives the stat and scoring stages (the ranked
candidate list is empty), `launch` fails with the typed no-executables
condition carrying the machine-readable reason code
`game.install.no_executables_found` — a distinct constructor of
`LaunchError`, not a crash and not a selected candidate. -/
theorem claim8_no_executables (ord : List Nat) (platform : List Char)
    (isolateApps : Bool) (fullExecOf : List Char → Option (List Char))
    (appPath : List Char) (stats : List Char → Option Nat)
    (executables : List (List Char))
    (h : rankedCandidates ord appPath stats executables = []) :
    launch ord platform isolateApps fullExecOf appPath stats executables
      = Except.error (LaunchError.noExecutables
          "After weighing/sorting, no executables left".toList
          ["game.install.no_executables_found".toList]) := by
  unfold launch
  rw [h]

/-- Witness for C8, at a concrete input with no declared executables. -/
theorem claim8_no_executables_witness :
    launch [] ("linux".toList) false (fun _ => none) ("/r".toList) (fun _ => none) []
      = Except.error (LaunchError.noExecutables
          "After weighing/sorting, no executables left".toList
          ["game.install.no_executables_found".toList]) :=
  claim8_no_executables [] ("linux".toList) false (fun _ => none) ("/r".toList)
    (fun _ => none) [] (by decide)

/-- C9: when the chosen (head) candidate's absolute path has a `.jar`
extension (case-insensitive), the command handed to `sh` is the fixed
virtual-machine invocation `java` followed by `-jar` and the absolute jar
path, ahead of any other arguments (there are none), each token quoted by
`escape`. -/
theorem claim9_jar_launch (ord : List Nat) (platform : List Char)
    (isolateApps : Bool) (fullExecOf : List Char → Option (List Char))
    (appPath : List Char) (stats : List Char → Option Nat)
    (executables : List (List Char)) (c : Exe) (rest : List Exe)
    (hrank : rankedCandidates ord appPath stats executables = c :: rest)
    (hjar : jarTest (pathJoin appPath c.path) = true) :
    launch ord platform isolateApps fullExecOf appPath stats executables
      = Except.ok ⟨"java".toList,
          escape ("java".toList) ++ ' ' ::
            (escape ("-jar".toList) ++ ' ' :: escape (pathJoin appPath c.path))⟩ := by
  unfold launch
  rw [hrank]
  simp only [hjar, if_true, List.nil_append]
  unfold launchExecutable
  rw [if_neg (by simp [isAppBundle, lower, endsWithL, startsWithL] :
    ¬ (platform = "darwin".toList ∧ isAppBundle ("java".toList) = true))]
  simp only [List.map_cons, List.map_nil, joinArgs]
  rw [if_pos (by simp [escape])]

/-- Witness for C9, at a concrete install containing a single jar. -/
theorem claim9_jar_launch_witness :
    launch [0] ("linux".toList) false (fun _ => none) ("/r".toList)
        (fun p => if p = "/r/game.jar".toList then some 42 else none)
        ["game.jar".toList]
      = Except.ok ⟨"java".toList,
          escape ("java".toList) ++ ' ' ::
            (escape ("-jar".toList) ++ ' ' ::
              escape (pathJoin ("/r".toList) ("game.jar".toList)))⟩ :=
  claim9_jar_launch [0] ("linux".toList) false (fun _ => none) ("/r".toList)
    (fun p => if p = "/r/game.jar".toList then some 42 else none)
    ["game.jar".toList] (Exe.mk ("game.jar".toList) 42 100 1) []
    (by decide) (by decide)

/-- C10: `ensureArray` returns the empty array when its input is falsy or
the input's `length` is falsy (including empty arrays, empty strings, and
objects without a `length` property), and otherwise returns the input
itself unchanged. -/
theorem claim10_ensureArray_behavior :
    (∀ v : JSVal, truthy v = false ∨ truthy (jsLength v) = false →
      ensureArray v = JSVal.arr []) ∧
    (∀ v : JSVal, truthy v = true → truthy (jsLength v) = true →
      ensureArray v = v) ∧
    ensureArray (JSVal.arr []) = JSVal.arr [] ∧
    ensureArray (JSVal.str []) = JSVal.arr [] ∧
    (∀ fields, lookupField ("length".toList) fields = none →
      ensureArray (JSVal.obj fields) = JSVal.arr []) := by
  refine ⟨?_, ?_, rfl, rfl, ?_⟩
  · intro v hv
    rcases hv with hv | hv <;> simp [ensureArray, hv]
  · intro v h1 h2
    simp [ensureArray, h1, h2]
  · intro fields hf
    have h2 : jsLength (JSVal.obj fields) = JSVal.undefined := by
      show (match lookupField ("length".toList) fields with
        | some v => v
        | none => JSVal.undefined) = JSVal.undefined
      rw [hf]
    simp [ensureArray, h2, truthy]

end Itch
